import Mathlib

/-!
Verification of the embedded pure-Python MD5 digest engine of
labs/lab-2/setup_user_api_key.py (class MD5Type and the fingerprint helper
public_key_to_fingerprint), as a shallow embedding in Lean.

Conventions of the embedding:
* Python 3 is the modelled runtime (the sys.version_info branches for
  Python 2 are dead on Python 3 and are not modelled).
* Python integers are unbounded and non-negative everywhere they occur in
  this code, so they are embedded as Nat.  All masking with 0xffffffff is
  kept exactly where the source performs it.
* Python bytes / byte lists are embedded as List Nat (one Nat per byte).
* Python bitwise complement (~x) yields a negative number whose low 32 bits
  are 0xffffffff ^^^ x; every use in this code is either masked with
  0xffffffff afterwards or combined with 32-bit operands, so the embedding
  uses the 32-bit complement 0xffffffff ^^^ x.  (The operands x, y, z of
  F, G, H, I are always reduced mod 2^32 by XX before reuse, and the sums
  in XX are masked with 0xffffffff, so only the low 32 bits matter.)
* The while-loop of MD5Type.update is embedded as a fuel-based structural
  recursion (transformLoop); the fuel len(inBuf) is an upper bound on the
  number of iterations, so the fuel never runs out on the calls made here.
-/

namespace PyMD5

/-- Source: `ffffffffL = 0xffffffff` (Python 3 branch). -/
def ffffffffL : Nat := 0xffffffff

/-- Source: `x3FL = 0x3F` (Python 3 branch). -/
def x3FL : Nat := 0x3F

/-- Source: `constantA = 0x67452301`. -/
def constantA : Nat := 0x67452301

/-- Source: `constantB = 0xefcdab89`. -/
def constantB : Nat := 0xefcdab89

/-- Source: `constantC = 0x98badcfe`. -/
def constantC : Nat := 0x98badcfe

/-- Source: `constantD = 0x10325476`. -/
def constantD : Nat := 0x10325476

/-- Source: the 64 entries of `hex_constant_strings`, evaluated with the
trailing L stripped (Python 3 branch builds `hex_constants` this way). -/
def hex_constants : List Nat := [
  0xD76AA478, 0xE8C7B756, 0x242070DB, 0xC1BDCEEE,
  0xF57C0FAF, 0x4787C62A, 0xA8304613, 0xFD469501,
  0x698098D8, 0x8B44F7AF, 0xFFFF5BB1, 0x895CD7BE,
  0x6B901122, 0xFD987193, 0xA679438E, 0x49B40821,
  0xF61E2562, 0xC040B340, 0x265E5A51, 0xE9B6C7AA,
  0xD62F105D, 0x02441453, 0xD8A1E681, 0xE7D3FBC8,
  0x21E1CDE6, 0xC33707D6, 0xF4D50D87, 0x455A14ED,
  0xA9E3E905, 0xFCEFA3F8, 0x676F02D9, 0x8D2A4C8A,
  0xFFFA3942, 0x8771F681, 0x6D9D6122, 0xFDE5380C,
  0xA4BEEA44, 0x4BDECFA9, 0xF6BB4B60, 0xBEBFBC70,
  0x289B7EC6, 0xEAA127FA, 0xD4EF3085, 0x04881D05,
  0xD9D4D039, 0xE6DB99E5, 0x1FA27CF8, 0xC4AC5665,
  0xF4292244, 0x432AFF97, 0xAB9423A7, 0xFC93A039,
  0x655B59C3, 0x8F0CCC92, 0xFFEFF47D, 0x85845DD1,
  0x6FA87E4F, 0xFE2CE6E0, 0xA3014314, 0x4E0811A1,
  0xF7537E82, 0xBD3AF235, 0x2AD7D2BB, 0xEB86D391]

/-- Shorthand for `hex_constants[i]` as used in `_transform`. -/
def hexConst (i : Nat) : Nat := hex_constants.getD i 0

/-- Source: `_bytelist2long`: packs each group of 4 bytes into one
little-endian 32-bit word, `b0 | b1 << 8 | b2 << 16 | b3 << 24`,
processing `len(list) / 4` (floor) groups. -/
def bytelist2long : List Nat → List Nat
  | b0 :: b1 :: b2 :: b3 :: rest =>
      (b0 ||| (b1 <<< 8) ||| (b2 <<< 16) ||| (b3 <<< 24)) :: bytelist2long rest
  | _ => []

/-- Source: `_rotateLeft(x, n) = (x << n) | (x >> (32 - n))`. -/
def rotateLeft (x n : Nat) : Nat := (x <<< n) ||| (x >>> (32 - n))

/-- Source: `F(x, y, z) = (x & y) | ((~x) & z)`; Python complement embedded
as xor with 0xffffffff (see module comment). -/
def F (x y z : Nat) : Nat := (x &&& y) ||| ((ffffffffL ^^^ x) &&& z)

/-- Source: `G(x, y, z) = (x & z) | (y & (~z))`. -/
def G (x y z : Nat) : Nat := (x &&& z) ||| (y &&& (ffffffffL ^^^ z))

/-- Source: `H(x, y, z) = x ^ y ^ z`. -/
def H (x y z : Nat) : Nat := x ^^^ y ^^^ z

/-- Source: `I(x, y, z) = y ^ (x | (~z))`. -/
def I (x y z : Nat) : Nat := y ^^^ (x ||| (ffffffffL ^^^ z))

/-- Source: `XX(func, a, b, c, d, x, s, ac)`: the shared body of the 64
steps: `((a + func(b,c,d) + x + ac) & 0xffffffff)` rotated left by s,
masked, plus b, masked. -/
def XX (func : Nat → Nat → Nat → Nat) (a b c d x s ac : Nat) : Nat :=
  let res := a + func b c d + x + ac
  let res := res &&& ffffffffL
  let res := rotateLeft res s
  let res := res &&& ffffffffL
  (res + b) &&& ffffffffL

/-- One step row of `_transform`: the mixing function, the message-word
index, the rotation amount and the additive constant of that line. -/
def Row : Type := (Nat → Nat → Nat → Nat) × Nat × Nat × Nat

/-- The 64 statements of `_transform`, one row per source line, in source
order.  Each line has the shape `w = XX(func, w, x, y, z, inp[k], s, ac)`
where (w,x,y,z) cycles through (a,b,c,d) / (d,a,b,c) / (c,d,a,b) /
(b,c,d,a); `applyRow` below reproduces that cyclic role rotation. -/
def md5Schedule : List Row := [
  -- Round 1 (F), shifts S11..S14 = 7, 12, 17, 22, constants 0..15
  (F, 0, 7, hexConst 0), (F, 1, 12, hexConst 1), (F, 2, 17, hexConst 2), (F, 3, 22, hexConst 3),
  (F, 4, 7, hexConst 4), (F, 5, 12, hexConst 5), (F, 6, 17, hexConst 6), (F, 7, 22, hexConst 7),
  (F, 8, 7, hexConst 8), (F, 9, 12, hexConst 9), (F, 10, 17, hexConst 10), (F, 11, 22, hexConst 11),
  (F, 12, 7, hexConst 12), (F, 13, 12, hexConst 13), (F, 14, 17, hexConst 14), (F, 15, 22, hexConst 15),
  -- Round 2 (G), shifts S21..S24 = 5, 9, 14, 20, constants 16..31
  (G, 1, 5, hexConst 16), (G, 6, 9, hexConst 17), (G, 11, 14, hexConst 18), (G, 0, 20, hexConst 19),
  (G, 5, 5, hexConst 20), (G, 10, 9, hexConst 21), (G, 15, 14, hexConst 22), (G, 4, 20, hexConst 23),
  (G, 9, 5, hexConst 24), (G, 14, 9, hexConst 25), (G, 3, 14, hexConst 26), (G, 8, 20, hexConst 27),
  (G, 13, 5, hexConst 28), (G, 2, 9, hexConst 29), (G, 7, 14, hexConst 30), (G, 12, 20, hexConst 31),
  -- Round 3 (H), shifts S31..S34 = 4, 11, 16, 23, constants 32..47
  (H, 5, 4, hexConst 32), (H, 8, 11, hexConst 33), (H, 11, 16, hexConst 34), (H, 14, 23, hexConst 35),
  (H, 1, 4, hexConst 36), (H, 4, 11, hexConst 37), (H, 7, 16, hexConst 38), (H, 10, 23, hexConst 39),
  (H, 13, 4, hexConst 40), (H, 0, 11, hexConst 41), (H, 3, 16, hexConst 42), (H, 6, 23, hexConst 43),
  (H, 9, 4, hexConst 44), (H, 12, 11, hexConst 45), (H, 15, 16, hexConst 46), (H, 2, 23, hexConst 47),
  -- Round 4 (I), shifts S41..S44 = 6, 10, 15, 21, constants 48..63
  (I, 0, 6, hexConst 48), (I, 7, 10, hexConst 49), (I, 14, 15, hexConst 50), (I, 5, 21, hexConst 51),
  (I, 12, 6, hexConst 52), (I, 3, 10, hexConst 53), (I, 10, 15, hexConst 54), (I, 1, 21, hexConst 55),
  (I, 8, 6, hexConst 56), (I, 15, 10, hexConst 57), (I, 6, 15, hexConst 58), (I, 13, 21, hexConst 59),
  (I, 4, 6, hexConst 60), (I, 11, 10, hexConst 61), (I, 2, 15, hexConst 62), (I, 9, 21, hexConst 63)]

/-- Executes one `_transform` statement `w = XX(func, w, x, y, z, inp[k],
s, ac)` on the role tuple (w, x, y, z) and rotates the roles for the next
statement: afterwards the tuple reads (z, w_new, x, y). -/
def applyRow (inp : List Nat) (t : Nat × Nat × Nat × Nat) (row : Row) :
    Nat × Nat × Nat × Nat :=
  (t.2.2.2, XX row.1 t.1 t.2.1 t.2.2.1 t.2.2.2 (inp.getD row.2.1 0) row.2.2.1 row.2.2.2,
   t.2.1, t.2.2.1)

/-- The 64 mixing statements of `_transform`, starting from (a, b, c, d) =
(A, B, C, D) and returning the final (a, b, c, d). -/
def md5Rounds (t : Nat × Nat × Nat × Nat) (inp : List Nat) : Nat × Nat × Nat × Nat :=
  md5Schedule.foldl (applyRow inp) t

/-- The value part of `_transform`: the 64 statements followed by
`A = (A + a) & 0xffffffff` and likewise for B, C, D. -/
def compressWords (t : Nat × Nat × Nat × Nat) (inp : List Nat) : Nat × Nat × Nat × Nat :=
  let r := md5Rounds t inp
  ((t.1 + r.1) &&& ffffffffL, (t.2.1 + r.2.1) &&& ffffffffL,
   (t.2.2.1 + r.2.2.1) &&& ffffffffL, (t.2.2.2 + r.2.2.2) &&& ffffffffL)

/-- The state of an `MD5Type` object.  The Python attribute `count` (a
two-element list) is split into the fields count0 and count1; both are
unbounded Python integers (Nat).  `input` is the buffered message bytes. -/
@[ext]
structure MD5Type where
  length : Nat
  count0 : Nat
  count1 : Nat
  input : List Nat
  A : Nat
  B : Nat
  C : Nat
  D : Nat
deriving Repr, DecidableEq

/-- Source: `MD5Type.init` (also the state produced by `__init__`): zero
counters, empty buffer, magic initial accumulators. -/
def init : MD5Type :=
  { length := 0, count0 := 0, count1 := 0, input := [],
    A := constantA, B := constantB, C := constantC, D := constantD }

/-- Source: `MD5Type._transform(inp)`: runs the 64 mixing statements on
(A, B, C, D) and stores the feed-forward sums back into the object. -/
def transform (s : MD5Type) (inp : List Nat) : MD5Type :=
  let r := compressWords (s.A, s.B, s.C, s.D) inp
  { s with A := r.1, B := r.2.1, C := r.2.2.1, D := r.2.2.2 }

/-- Source: the `while i + 63 < leninBuf` loop of `update`, phrased on the
remaining byte list `rest = inBuf[i:]`: while at least 64 bytes remain,
transform the next 64-byte block; returns the state and the remaining tail
(which the source then assigns to `self.input`).  The first argument is
fuel bounding the number of iterations (one iteration consumes 64 bytes,
so any fuel at least `rest.length` is enough). -/
def transformLoop : Nat → MD5Type → List Nat → MD5Type × List Nat
  | 0, s, rest => (s, rest)
  | fuel + 1, s, rest =>
      if 64 ≤ rest.length then
        transformLoop fuel (transform s (bytelist2long (rest.take 64))) (rest.drop 64)
      else (s, rest)

/-- Source: `MD5Type.update(inBuf)`.  `index` is the buffered byte count
taken from the bit counter; the bit counter is advanced by `len(inBuf)<<3`
(the overflow branch `if self.count[0] < (leninBuf << 3)` is kept even
though it can never fire on unbounded integers) and count1 by
`len(inBuf) >> 29`.  If the new data completes a 64-byte block, the slice
assignment `self.input[index:] = list(inBuf[:partLen])` builds the block,
it is transformed, the remaining full blocks are transformed by the while
loop, and the tail is buffered; otherwise the bytes are appended to the
buffer. -/
def update (s : MD5Type) (inBuf : List Nat) : MD5Type :=
  let leninBuf := inBuf.length
  let index := (s.count0 >>> 3) &&& x3FL
  let count0 := s.count0 + (leninBuf <<< 3)
  let count1 := if count0 < (leninBuf <<< 3) then s.count1 + 1 else s.count1
  let count1 := count1 + (leninBuf >>> 29)
  let partLen := 64 - index
  if partLen ≤ leninBuf then
    let input1 := s.input.take index ++ inBuf.take partLen
    let s1 := transform { s with count0 := count0, count1 := count1, input := input1 }
      (bytelist2long input1)
    let r := transformLoop leninBuf s1 (inBuf.drop partLen)
    { r.1 with input := r.2 }
  else
    { s with count0 := count0, count1 := count1, input := s.input ++ inBuf }

/-- Little-endian serialization of one 32-bit word, modelling one `<I`
field of `struct.pack("<IIII", ...)` (the source only packs values already
masked to 32 bits). -/
def pack4 (n : Nat) : List Nat :=
  [n % 256, (n / 256) % 256, (n / 65536) % 256, (n / 16777216) % 256]

/-- Source: `MD5Type.digest()`: snapshots A, B, C, D, input, count,
computes the padded final block(s) through `self.update`, transforms the
56 buffered bytes plus the two saved count words, packs A, B, C, D
little-endian, and restores the snapshot before returning. -/
def digest (s : MD5Type) : List Nat × MD5Type :=
  let A := s.A
  let B := s.B
  let C := s.C
  let D := s.D
  let input := s.input
  let count0 := s.count0
  let count1 := s.count1
  let index := (s.count0 >>> 3) &&& x3FL
  let padLen := if index < 56 then 56 - index else 120 - index
  let padding : List Nat := 0x80 :: List.replicate 63 0
  let s1 := update s (padding.take padLen)
  let bits := bytelist2long (s1.input.take 56) ++ [count0, count1]
  let s2 := transform s1 bits
  let d := pack4 s2.A ++ pack4 s2.B ++ pack4 s2.C ++ pack4 s2.D
  (d, { s2 with A := A, B := B, C := C, D := D,
                input := input, count0 := count0, count1 := count1 })

/-- The character `%x` uses for one hex digit (0-9 then lowercase a-f). -/
def hexChar (n : Nat) : Char :=
  if n < 10 then Char.ofNat (48 + n) else Char.ofNat (87 + n)

/-- The two characters of `%02x` applied to one byte (values < 256):
most significant nibble first. -/
def byteHexChars (c : Nat) : List Char := [hexChar (c / 16), hexChar (c % 16)]

/-- Source: `MD5Type.hexdigest()`: the digest bytes rendered with
`''.join(['%02x' % c for c in digest])`, paired with the state the
`digest()` call leaves behind. -/
def hexdigest (s : MD5Type) : String × MD5Type :=
  let r := digest s
  (String.mk (r.1.map byteHexChars).flatten, r.2)

/-- Source: `MD5Type.copy()`: field-by-field duplication onto a freshly
initialised object (the `if 0:` deepcopy branch is dead and not
modelled). -/
def copy (s : MD5Type) : MD5Type :=
  { init with length := s.length, count0 := s.count0, count1 := s.count1,
              input := s.input, A := s.A, B := s.B, C := s.C, D := s.D }

/-- Source: top-level `new(arg)`: a fresh MD5Type, updated with arg when
arg is truthy (a non-empty byte string). -/
def new (arg : List Nat) : MD5Type :=
  if arg = [] then init else update init arg

/-- Source: top-level `md5(arg)`, an alias of `new`. -/
def md5 (arg : List Nat) : MD5Type := new arg

/-- The byte values of an ASCII string, as fed to the engine. -/
def strBytes (s : String) : List Nat := s.toList.map Char.toNat

/-- Hex digest of one whole message on a fresh engine: fresh MD5Type, one
`update`, then `hexdigest`. -/
def md5hexOf (msg : List Nat) : String := (hexdigest (update init msg)).1

/-- The states an engine can reach, indexed by the list of `update`
arguments fed so far (`digest()` calls leave the object in the state its
restore step produces and feed nothing). -/
inductive Traces : List (List Nat) → MD5Type → Prop
  | init : Traces [] init
  | upd {chs : List (List Nat)} {s : MD5Type} (buf : List Nat) :
      Traces chs s → Traces (chs ++ [buf]) (update s buf)
  | dig {chs : List (List Nat)} {s : MD5Type} :
      Traces chs s → Traces chs (digest s).2

end PyMD5

namespace Fingerprint

open PyMD5

/-- The byte values of `b'-----BEGIN PUBLIC KEY-----'`. -/
def headerBytes : List Nat := strBytes "-----BEGIN PUBLIC KEY-----"

/-- The byte values of `b'-----END PUBLIC KEY-----'`. -/
def footerBytes : List Nat := strBytes "-----END PUBLIC KEY-----"

/-- Left-to-right removal of every (non-overlapping) occurrence of `pat`,
modelling Python `bytes.replace(pat, b'')` for non-empty `pat`.  The fuel
(first argument) bounds the scan; `l.length` is always enough because each
step consumes at least one byte. -/
def removeOccsAux (pat : List Nat) : Nat → List Nat → List Nat
  | 0, l => l
  | fuel + 1, l =>
      match l with
      | [] => []
      | x :: xs =>
          if pat.isPrefixOf l ∧ pat ≠ [] then removeOccsAux pat fuel (l.drop pat.length)
          else x :: removeOccsAux pat fuel xs

/-- Python `l.replace(pat, b'')` for non-empty `pat`. -/
def removeOccs (pat l : List Nat) : List Nat := removeOccsAux pat l.length l

/-- The stripping pipeline of `public_key_to_fingerprint`:
`bytes.replace(header, b'').replace(footer, b'').replace(b'\n', b'')`. -/
def stripPem (pem : List Nat) : List Nat :=
  removeOccs [10] (removeOccs footerBytes (removeOccs headerBytes pem))

/-- The value of one standard-alphabet Base64 character (A-Z, a-z, 0-9,
+, /), none for every other byte. -/
def b64val (c : Nat) : Option Nat :=
  if 65 ≤ c ∧ c ≤ 90 then some (c - 65)
  else if 97 ≤ c ∧ c ≤ 122 then some (c - 97 + 26)
  else if 48 ≤ c ∧ c ≤ 57 then some (c - 48 + 52)
  else if c = 43 then some 62
  else if c = 47 then some 63
  else none

/-- Decoding of a padding-stripped Base64 body, four characters (three
bytes) at a time; a final group of two or three characters yields one or
two bytes, a lone trailing character is invalid. -/
def b64core : List Nat → Option (List Nat)
  | [] => some []
  | [_] => none
  | [a, b] =>
      match b64val a, b64val b with
      | some va, some vb => some [(va <<< 2) ||| (vb >>> 4)]
      | _, _ => none
  | [a, b, c] =>
      match b64val a, b64val b, b64val c with
      | some va, some vb, some vc =>
          some [(va <<< 2) ||| (vb >>> 4), ((vb &&& 15) <<< 4) ||| (vc >>> 2)]
      | _, _, _ => none
  | a :: b :: c :: d :: rest =>
      match b64val a, b64val b, b64val c, b64val d, b64core rest with
      | some va, some vb, some vc, some vd, some tail =>
          some (((va <<< 2) ||| (vb >>> 4)) ::
                (((vb &&& 15) <<< 4) ||| (vc >>> 2)) ::
                (((vc &&& 3) <<< 6) ||| vd) :: tail)
      | _, _, _, _, _ => none

/-- Model of the standard-library call `base64.b64decode(bytes)` (default
validate=False) on canonical input: bytes outside the alphabet and the
padding character are discarded, the kept length must be a multiple of
four, and the characters before the padding are decoded; invalid input is
none (Python raises binascii.Error). -/
def b64decode (l : List Nat) : Option (List Nat) :=
  let kept := l.filter (fun c => (b64val c).isSome || c == 61)
  if kept.length % 4 = 0 then b64core (kept.takeWhile (fun c => c ≠ 61)) else none

/-- Python `s[::2]` (every other element starting at the first). -/
def everyOther : List Char → List Char
  | [] => []
  | [c] => [c]
  | c :: _ :: rest => c :: everyOther rest

/-- Python `':'.join(parts)`. -/
def joinColon : List String → String
  | [] => ""
  | [x] => x
  | x :: y :: rest => x ++ ":" ++ joinColon (y :: rest)

/-- Source: `':'.join(a + b for a, b in zip(fp_plain[::2], fp_plain[1::2]))`. -/
def zipColonPairs (fp : String) : String :=
  let l := fp.toList
  joinColon (((everyOther l).zip (everyOther (l.drop 1))).map
    (fun p => String.mk [p.1, p.2]))

/-- Source: `public_key_to_fingerprint`, starting from the PEM bytes the
serialization call produces: strip header, footer and newlines,
Base64-decode, MD5 the raw key bytes, and colon-join the hex pairs.
Decoding failure (impossible for real PEM input) is propagated as none. -/
def public_key_to_fingerprint (pem : List Nat) : Option String :=
  match b64decode (stripPem pem) with
  | none => none
  | some key => some (zipColonPairs (hexdigest (md5 key)).1)

/-- Claim-side regrouping: the hex string cut into two-character groups. -/
def chunk2 : List Char → List String
  | a :: b :: rest => String.mk [a, b] :: chunk2 rest
  | _ => []

/-- Claim-side rendering: the 32 hex characters regrouped into
colon-separated two-character groups. -/
def colonGroups (s : String) : String := joinColon (chunk2 s.toList)

end Fingerprint

namespace PyMD5

/-! ### Field-preservation lemmas -/

@[simp] theorem transform_length (s : MD5Type) (inp : List Nat) :
    (transform s inp).length = s.length := rfl

@[simp] theorem transform_count0 (s : MD5Type) (inp : List Nat) :
    (transform s inp).count0 = s.count0 := rfl

@[simp] theorem transform_count1 (s : MD5Type) (inp : List Nat) :
    (transform s inp).count1 = s.count1 := rfl

@[simp] theorem transform_input (s : MD5Type) (inp : List Nat) :
    (transform s inp).input = s.input := rfl

@[simp] theorem transformLoop_length :
    ∀ (f : Nat) (s : MD5Type) (rest : List Nat),
      ((transformLoop f s rest).1).length = s.length
  | 0, _, _ => rfl
  | f + 1, s, rest => by
      simp only [transformLoop]
      split
      · rw [transformLoop_length f]; rfl
      · rfl

@[simp] theorem transformLoop_count0 :
    ∀ (f : Nat) (s : MD5Type) (rest : List Nat),
      ((transformLoop f s rest).1).count0 = s.count0
  | 0, _, _ => rfl
  | f + 1, s, rest => by
      simp only [transformLoop]
      split
      · rw [transformLoop_count0 f]; rfl
      · rfl

@[simp] theorem transformLoop_count1 :
    ∀ (f : Nat) (s : MD5Type) (rest : List Nat),
      ((transformLoop f s rest).1).count1 = s.count1
  | 0, _, _ => rfl
  | f + 1, s, rest => by
      simp only [transformLoop]
      split
      · rw [transformLoop_count1 f]; rfl
      · rfl

theorem update_length (s : MD5Type) (buf : List Nat) :
    (update s buf).length = s.length := by
  simp only [update]
  split <;> simp

theorem update_count0 (s : MD5Type) (buf : List Nat) :
    (update s buf).count0 = s.count0 + 8 * buf.length := by
  simp only [update]
  split <;> simp [Nat.shiftLeft_eq] <;> ring

theorem update_count1 (s : MD5Type) (buf : List Nat) :
    (update s buf).count1 = s.count1 + (buf.length >>> 29) := by
  have hc : ¬ (s.count0 + (buf.length <<< 3) < buf.length <<< 3) :=
    Nat.not_lt.2 (Nat.le_add_left _ _)
  simp only [update, if_neg hc]
  split <;> simp

/-- Restoring the snapshot turns any state with the right length field
back into the snapshot. -/
theorem restore_eq (t s : MD5Type) (h : t.length = s.length) :
    ({ t with A := s.A, B := s.B, C := s.C, D := s.D,
              input := s.input, count0 := s.count0, count1 := s.count1 } : MD5Type) = s := by
  ext <;> simp [h]

/-- The snapshot/restore of `digest` leaves the object exactly as it was. -/
theorem digest_restores (s : MD5Type) : (digest s).2 = s := by
  simp only [digest]
  exact restore_eq _ _ (by simp [update_length])

/-! ### The buffer/counter invariant -/

theorem and_x3F (n : Nat) : n &&& x3FL = n % 64 := by
  have h := Nat.and_pow_two_sub_one_eq_mod n 6
  norm_num at h
  simpa [x3FL] using h

theorem transformLoop_rest_length :
    ∀ (f : Nat) (s : MD5Type) (rest : List Nat), rest.length ≤ f →
      ((transformLoop f s rest).2).length = rest.length % 64
  | 0, s, rest, h => by
      have : rest.length = 0 := Nat.le_zero.1 h
      simp [transformLoop, this]
  | f + 1, s, rest, h => by
      simp only [transformLoop]
      split
      · rw [transformLoop_rest_length f _ _ (by simp; omega)]
        simp only [List.length_drop]
        omega
      · simp only []
        omega

theorem update_input_length (s : MD5Type) (buf : List Nat)
    (h : s.input.length = (s.count0 >>> 3) % 64) :
    (update s buf).input.length = (s.input.length + buf.length) % 64 := by
  have hidx : (s.count0 >>> 3) &&& x3FL = s.input.length := by rw [and_x3F, h]
  have hlt : s.input.length < 64 := by rw [h]; exact Nat.mod_lt _ (by norm_num)
  simp only [update, hidx]
  split
  · rw [transformLoop_rest_length _ _ _ (by simp [List.length_drop])]
    simp only [List.length_drop]
    omega
  · simp only [List.length_append]
    omega

/-- The invariant of every reachable state: count0 is exactly eight times
the number of bytes fed so far, and the buffer holds exactly the bytes the
bit counter says are pending. -/
theorem traces_inv {chs : List (List Nat)} {s : MD5Type} (h : Traces chs s) :
    s.count0 = 8 * chs.flatten.length ∧ s.input.length = (s.count0 >>> 3) % 64 := by
  induction h with
  | init => simp [init]
  | @upd chs0 s0 buf h ih =>
      obtain ⟨ih1, ih2⟩ := ih
      refine ⟨?_, ?_⟩
      · rw [update_count0, ih1]
        simp [Nat.mul_add]
      · have ih2' : s0.input.length = ((8 * chs0.flatten.length) >>> 3) % 64 := by
          rw [← ih1]; exact ih2
        rw [update_input_length _ _ ih2, update_count0, ih1]
        rw [Nat.shiftRight_eq_div_pow] at ih2' ⊢
        norm_num at ih2' ⊢
        omega
  | dig h ih => rwa [digest_restores]

/-- Every reachable state is the fold of its update history over a fresh
engine (digest calls restore the state, so they contribute nothing). -/
theorem traces_foldl {chs : List (List Nat)} {s : MD5Type} (h : Traces chs s) :
    s = List.foldl update init chs := by
  induction h with
  | init => rfl
  | upd buf h ih => rw [List.foldl_append, ← ih]; rfl
  | dig h ih => rw [digest_restores]; exact ih

theorem copy_eq (s : MD5Type) : copy s = s := by
  ext <;> rfl

/-! ### Claim theorems -/

/-- C1 (counterexample): the claim calls "The quick brown fox jumps over
the lazy dog" a 56-byte string, but it has 43 bytes, so the claim as
stated is false of that input. -/
theorem c1_counterexample :
    ¬ ((strBytes "The quick brown fox jumps over the lazy dog").length = 56 ∧
       md5hexOf (strBytes "The quick brown fox jumps over the lazy dog") =
         "9e107d9d372bb6826bd81d3542a419d6") := by
  intro h
  exact absurd h.1 (by decide)

/-- C1 (amended): on a fresh engine, update followed by hexdigest maps the
empty input to d41d8cd98f00b204e9800998ecf8427e, "abc" to
900150983cd24fb0d6963f7d28e17f72, and the 43-byte string "The quick brown
fox jumps over the lazy dog" to 9e107d9d372bb6826bd81d3542a419d6. -/
theorem c1_known_vectors :
    md5hexOf (strBytes "") = "d41d8cd98f00b204e9800998ecf8427e" ∧
    md5hexOf (strBytes "abc") = "900150983cd24fb0d6963f7d28e17f72" ∧
    (strBytes "The quick brown fox jumps over the lazy dog").length = 43 ∧
    md5hexOf (strBytes "The quick brown fox jumps over the lazy dog") =
      "9e107d9d372bb6826bd81d3542a419d6" := by
  set_option maxRecDepth 65536 in
  exact ⟨rfl, rfl, rfl, rfl⟩

/-- A 2^28-byte input, half of the smallest input length at which the
Python-3 port's bit counter goes wrong. -/
def big28 : List Nat := List.replicate (2 ^ 28) 0

/-- C2 (code bug at the failing input): feeding 2^29 zero bytes as two
update calls of 2^28 bytes leaves count1 = 0, while one update call with
the concatenation leaves count1 = 1, so the two engines are in different
states; digest() hashes count1 as the sixteenth word of the final block,
so the claimed update-splitting equivalence fails at this input even
though the update docstring promises it. -/
theorem c2_chunking_fails :
    (update (update init big28) big28).count1 = 0 ∧
    (update init (big28 ++ big28)).count1 = 1 ∧
    update (update init big28) big28 ≠ update init (big28 ++ big28) := by
  have hlen : big28.length = 2 ^ 28 := by rw [big28, List.length_replicate]
  have h1 : (update (update init big28) big28).count1 = 0 := by
    rw [update_count1, update_count1, hlen]
    norm_num [init, Nat.shiftRight_eq_div_pow]
  have h2 : (update init (big28 ++ big28)).count1 = 1 := by
    rw [update_count1, List.length_append, hlen]
    norm_num [init, Nat.shiftRight_eq_div_pow]
  refine ⟨h1, h2, fun he => ?_⟩
  rw [congrArg MD5Type.count1 he, h2] at h1
  exact absurd h1 one_ne_zero

/-- C5 (code bug at the failing input): after two update calls of 2^28
zero bytes the two count words read (count1, count0) = (0, 2^32), so the
pair (count1 mod 2^32, count0 mod 2^32) encodes 0, while the total input
bit length mod 2^64 is 2^32: the carry branch of update never fires on
unbounded Python-3 integers and count1 undercounts split inputs. -/
theorem c5_bitlength_encoding_fails :
    ((update (update init big28) big28).count1 % 2 ^ 32) * 2 ^ 32 +
        (update (update init big28) big28).count0 % 2 ^ 32 ≠
      (8 * (big28 ++ big28).length) % 2 ^ 64 := by
  have hlen : big28.length = 2 ^ 28 := by rw [big28, List.length_replicate]
  have h0 : (update (update init big28) big28).count0 = 2 ^ 32 := by
    rw [update_count0, update_count0, hlen]
    norm_num [init]
  have h1 : (update (update init big28) big28).count1 = 0 := by
    rw [update_count1, update_count1, hlen]
    norm_num [init, Nat.shiftRight_eq_div_pow]
  rw [h0, h1, List.length_append, hlen]
  norm_num

/-- C3: digest() restores its snapshot of A, B, C, D, input and count, so
it leaves the object exactly as it was; hence a second digest() returns
the same bytes and any later update sequence behaves as if digest() had
never been called. -/
theorem c3_digest_leaves_state :
    ∀ s : MD5Type,
      (digest s).2 = s ∧
      (digest ((digest s).2)).1 = (digest s).1 ∧
      ∀ bufs : List (List Nat),
        List.foldl update ((digest s).2) bufs = List.foldl update s bufs := by
  intro s
  exact ⟨digest_restores s, by rw [digest_restores], fun bufs => by rw [digest_restores]⟩

/-- C8: copy() duplicates every field, so the clone equals the original,
and the states (hence digests) a copied or original engine reaches under
any further update sequence are exactly those of a fresh engine fed the
full call history followed by that sequence. -/
theorem c8_copy_independent :
    ∀ (chs : List (List Nat)) (s : MD5Type), Traces chs s →
      copy s = s ∧
      (∀ xs : List (List Nat),
        List.foldl update (copy s) xs = List.foldl update init (chs ++ xs) ∧
        List.foldl update s xs = List.foldl update init (chs ++ xs)) ∧
      ∀ xs : List (List Nat),
        (digest (List.foldl update (copy s) xs)).1 =
          (digest (List.foldl update init (chs ++ xs))).1 := by
  intro chs s h
  have hs := traces_foldl h
  have hc := copy_eq s
  refine ⟨hc, fun xs => ?_, fun xs => ?_⟩
  · rw [hc, List.foldl_append, ← hs]
    exact ⟨rfl, rfl⟩
  · rw [hc, List.foldl_append, ← hs]

/-- C8 witness: the concrete one-update trace [1, 2, 3]. -/
theorem c8_witness :
    Traces [[1, 2, 3]] (update init [1, 2, 3]) ∧
    copy (update init [1, 2, 3]) = update init [1, 2, 3] := by
  have ht : Traces [[1, 2, 3]] (update init [1, 2, 3]) := by
    simpa using Traces.upd [1, 2, 3] Traces.init
  exact ⟨ht, (c8_copy_independent _ _ ht).1⟩

/-- C9: in every reachable state the buffered input holds fewer than 64
bytes. -/
theorem c9_buffer_lt_64 :
    ∀ (chs : List (List Nat)) (s : MD5Type), Traces chs s → s.input.length < 64 := by
  intro chs s h
  rw [(traces_inv h).2]
  exact Nat.mod_lt _ (by norm_num)

/-- C9 witness: the concrete one-update trace [1, 2]. -/
theorem c9_witness :
    Traces [[1, 2]] (update init [1, 2]) ∧ (update init [1, 2]).input.length < 64 := by
  have ht : Traces [[1, 2]] (update init [1, 2]) := by
    simpa using Traces.upd [1, 2] Traces.init
  exact ⟨ht, c9_buffer_lt_64 _ _ ht⟩

/-- C10: in every reachable state count0 is exactly eight times the total
number of bytes fed so far and the buffer length is (count0 >> 3) mod 64;
update preserves this and digest() restores it. -/
theorem c10_counter_buffer_sync :
    ∀ (chs : List (List Nat)) (s : MD5Type), Traces chs s →
      s.count0 = 8 * chs.flatten.length ∧
      s.input.length = (s.count0 >>> 3) % 64 := by
  intro chs s h
  exact traces_inv h

/-- Claim-side reading of hex encoding: two hex digits per byte, most
significant nibble first, bytes in order. -/
def hexEncode (bs : List Nat) : String := String.mk (bs.map byteHexChars).flatten

theorem digest_bytes_length (s : MD5Type) : ((digest s).1).length = 16 := rfl

theorem digest_bytes_lt (s : MD5Type) : ∀ b ∈ (digest s).1, b < 256 := by
  intro b hb
  simp only [digest, pack4, List.mem_append, List.mem_cons, List.not_mem_nil,
    or_false] at hb
  rcases hb with hb | hb | hb | hb | hb | hb | hb | hb | hb | hb | hb | hb | hb | hb | hb | hb <;>
    omega

theorem hexChar_mem (n : Nat) (h : n < 16) :
    hexChar n ∈ ("0123456789abcdef").toList := by
  interval_cases n <;> decide

theorem hexdigest_length (s : MD5Type) : ((hexdigest s).1).length = 32 := by
  have hcomp : List.length ∘ byteHexChars = fun _ => (2 : Nat) := by
    funext x; rfl
  show (String.mk ((digest s).1.map byteHexChars).flatten).length = 32
  rw [String.length_mk, List.length_flatten, List.map_map, hcomp,
    List.map_const', List.sum_replicate, digest_bytes_length]
  rfl

theorem hexdigest_chars (s : MD5Type) :
    ∀ c ∈ ((hexdigest s).1).toList, c ∈ ("0123456789abcdef").toList := by
  intro c hc
  have hc' : c ∈ ((digest s).1.map byteHexChars).flatten := hc
  rw [List.mem_flatten] at hc'
  obtain ⟨l, hl, hcl⟩ := hc'
  rw [List.mem_map] at hl
  obtain ⟨b, hb, rfl⟩ := hl
  have hblt := digest_bytes_lt s b hb
  simp only [byteHexChars, List.mem_cons, List.not_mem_nil, or_false] at hcl
  rcases hcl with rfl | rfl
  · exact hexChar_mem _ (by omega)
  · exact hexChar_mem _ (by omega)

/-- C7: hexdigest() is exactly the hex encoding of the 16 digest bytes: a
32-character string of lowercase hex digits, two per byte with the most
significant nibble first, in serialization order, and it leaves the same
state behind as digest(). -/
theorem c7_hexdigest_is_hex_of_digest :
    ∀ s : MD5Type,
      (hexdigest s).1 = hexEncode (digest s).1 ∧
      (hexdigest s).2 = (digest s).2 ∧
      ((hexdigest s).1).length = 32 ∧
      ∀ c ∈ ((hexdigest s).1).toList, c ∈ ("0123456789abcdef").toList := by
  intro s
  exact ⟨rfl, rfl, hexdigest_length s, hexdigest_chars s⟩

theorem update_nil (s : MD5Type) : update s [] = s := by
  have hidx : (s.count0 >>> 3) &&& x3FL < 64 := by
    rw [and_x3F]; exact Nat.mod_lt _ (by norm_num)
  simp only [update, List.length_nil]
  rw [if_neg (by omega)]
  ext <;> simp

/-- C10 witness: the concrete one-update trace [5, 6, 7, 8]. -/
theorem c10_witness :
    Traces [[5, 6, 7, 8]] (update init [5, 6, 7, 8]) ∧
    (update init [5, 6, 7, 8]).count0 = 8 * ([[5, 6, 7, 8]] : List (List Nat)).flatten.length ∧
    (update init [5, 6, 7, 8]).input.length = ((update init [5, 6, 7, 8]).count0 >>> 3) % 64 := by
  have ht : Traces [[5, 6, 7, 8]] (update init [5, 6, 7, 8]) := by
    simpa using Traces.upd [5, 6, 7, 8] Traces.init
  exact ⟨ht, c10_counter_buffer_sync _ _ ht⟩

end PyMD5

namespace Fingerprint

open PyMD5

/-- The zip of the even-index and odd-index characters, rendered as
two-character strings, is exactly the cut into consecutive pairs. -/
theorem zip_pairs_eq_chunk2 :
    ∀ l : List Char,
      ((everyOther l).zip (everyOther (l.drop 1))).map
          (fun p => String.mk [p.1, p.2]) = chunk2 l
  | [] => rfl
  | [_] => rfl
  | a :: b :: rest => by
      cases rest with
      | nil => rfl
      | cons c rest' =>
          simp only [everyOther, List.drop_succ_cons, List.drop_zero, List.zip_cons_cons,
            List.map_cons, chunk2]
          rw [← zip_pairs_eq_chunk2 (c :: rest')]
          simp [everyOther]

theorem zipColonPairs_eq_colonGroups (s : String) :
    zipColonPairs s = colonGroups s := by
  simp only [zipColonPairs, colonGroups]
  rw [zip_pairs_eq_chunk2]

theorem chunk2_length : ∀ l : List Char, (chunk2 l).length = l.length / 2
  | [] => rfl
  | [_] => by
      change (0 : Nat) = 1 / 2
      norm_num
  | _ :: _ :: rest => by
      simp only [chunk2, List.length_cons, chunk2_length rest]
      omega

theorem chunk2_piece_length :
    ∀ l : List Char, ∀ p ∈ chunk2 l, p.length = 2
  | [] => by intro p hp; cases hp
  | [_] => by intro p hp; cases hp
  | a :: b :: rest => by
      intro p hp
      rcases List.mem_cons.1 hp with rfl | hp
      · rfl
      · exact chunk2_piece_length rest p hp

theorem joinColon_length :
    ∀ parts : List String, parts ≠ [] → (∀ p ∈ parts, p.length = 2) →
      (joinColon parts).length = 3 * parts.length - 1
  | [], h, _ => absurd rfl h
  | [x], _, hp => by
      simp only [joinColon, List.length_cons, List.length_nil]
      rw [hp x (List.mem_singleton.2 rfl)]
  | x :: y :: rest, _, hp => by
      have hrec := joinColon_length (y :: rest) (by simp)
        (fun p hmem => hp p (List.mem_cons_of_mem x hmem))
      simp only [joinColon] at hrec ⊢
      rw [String.length_append, String.length_append, hrec,
        hp x (List.mem_cons_self x _)]
      simp only [List.length_cons]
      have hone : (":" : String).length = 1 := rfl
      rw [hone]
      omega

/-- C6: on every PEM input whose stripped body Base64-decodes,
public_key_to_fingerprint strips the header, footer and newlines, decodes
the body, MD5-hashes the raw key bytes in one update pass, and returns the
32 lowercase hex characters regrouped into 16 colon-separated two-character
groups, a 47-character string. -/
theorem c6_fingerprint :
    ∀ (pem key : List Nat), b64decode (stripPem pem) = some key →
      public_key_to_fingerprint pem = some (colonGroups (hexdigest (md5 key)).1) ∧
      (hexdigest (md5 key)).1 = (hexdigest (update init key)).1 ∧
      ((hexdigest (md5 key)).1).length = 32 ∧
      (colonGroups (hexdigest (md5 key)).1).length = 47 := by
  intro pem key h
  have hlen32 : ((hexdigest (md5 key)).1).length = 32 := hexdigest_length _
  refine ⟨?_, ?_, hlen32, ?_⟩
  · simp only [public_key_to_fingerprint, h]
    rw [zipColonPairs_eq_colonGroups]
  · by_cases hk : key = []
    · subst hk
      show (hexdigest (new [])).1 = _
      rw [show new [] = init from rfl, update_nil]
    · show (hexdigest (new key)).1 = _
      rw [show new key = if key = [] then init else update init key from rfl, if_neg hk]
  · have htl : ((hexdigest (md5 key)).1).toList.length = 32 := hlen32
    have hchunklen : (chunk2 ((hexdigest (md5 key)).1).toList).length = 16 := by
      rw [chunk2_length, htl]
    have hne : chunk2 ((hexdigest (md5 key)).1).toList ≠ [] := by
      intro hnil
      rw [hnil] at hchunklen
      simp at hchunklen
    simp only [colonGroups]
    rw [joinColon_length _ hne (chunk2_piece_length _), hchunklen]

end Fingerprint

namespace PyMD5

/-! ### Congruence of the compression rounds in the message words mod 2^32

The final block of `digest` carries the raw count words (which can exceed
2^32 on huge inputs); `XX` masks every sum with 0xffffffff, so only the
words mod 2^32 matter.  These lemmas make that precise without ever
expanding the 64-step round chain symbolically. -/

theorem and_ffffffff (n : Nat) : n &&& ffffffffL = n % 2 ^ 32 := by
  have h := Nat.and_pow_two_sub_one_eq_mod n 32
  norm_num at h
  simpa [ffffffffL] using h

theorem XX_mod (f : Nat → Nat → Nat → Nat) (a b c d x sh ac : Nat) :
    XX f a b c d x sh ac = XX f a b c d (x % 2 ^ 32) sh ac := by
  simp only [XX]
  have he : (a + f b c d + x + ac) &&& ffffffffL =
      (a + f b c d + x % 2 ^ 32 + ac) &&& ffffffffL := by
    rw [and_ffffffff, and_ffffffff]
    omega
  rw [he]

theorem applyRow_congr (inp inp' : List Nat)
    (h : ∀ k, inp.getD k 0 % 2 ^ 32 = inp'.getD k 0 % 2 ^ 32)
    (t : Nat × Nat × Nat × Nat) (row : Row) :
    applyRow inp t row = applyRow inp' t row := by
  simp only [applyRow]
  rw [XX_mod, h row.2.1, ← XX_mod]

theorem foldl_applyRow_congr (inp inp' : List Nat)
    (h : ∀ k, inp.getD k 0 % 2 ^ 32 = inp'.getD k 0 % 2 ^ 32) :
    ∀ (rows : List Row) (t : Nat × Nat × Nat × Nat),
      List.foldl (applyRow inp) t rows = List.foldl (applyRow inp') t rows
  | [], _ => rfl
  | row :: rows, t => by
      rw [List.foldl_cons, List.foldl_cons, applyRow_congr inp inp' h t row,
        foldl_applyRow_congr inp inp' h rows _]

theorem compressWords_congr {inp inp' : List Nat} (t : Nat × Nat × Nat × Nat)
    (h : ∀ k, inp.getD k 0 % 2 ^ 32 = inp'.getD k 0 % 2 ^ 32) :
    compressWords t inp = compressWords t inp' := by
  simp only [compressWords, md5Rounds]
  rw [foldl_applyRow_congr inp inp' h]

/-! ### Word decoding of byte lists -/

theorem bytelist2long_append :
    ∀ (xs ys : List Nat), xs.length % 4 = 0 →
      bytelist2long (xs ++ ys) = bytelist2long xs ++ bytelist2long ys
  | [], _, _ => rfl
  | [_], _, h => by simp at h
  | [_, _], _, h => by simp at h
  | [_, _, _], _, h => by simp at h
  | _ :: _ :: _ :: _ :: rest, ys, h => by
      simp only [List.cons_append, bytelist2long, List.append_eq]
      rw [bytelist2long_append rest ys (by simp only [List.length_cons] at h; omega)]

theorem bytes_word (b0 b1 b2 b3 : Nat)
    (h0 : b0 < 256) (h1 : b1 < 256) (h2 : b2 < 256) :
    b0 ||| (b1 <<< 8) ||| (b2 <<< 16) ||| (b3 <<< 24) =
      b0 + b1 * 2 ^ 8 + b2 * 2 ^ 16 + b3 * 2 ^ 24 := by
  rw [Nat.shiftLeft_eq, Nat.shiftLeft_eq, Nat.shiftLeft_eq]
  have e1 : b0 ||| b1 * 2 ^ 8 = b1 * 2 ^ 8 + b0 := by
    rw [Nat.or_comm, Nat.mul_comm, ← Nat.mul_add_lt_is_or h0]
  rw [e1]
  have e2 : b1 * 2 ^ 8 + b0 ||| b2 * 2 ^ 16 = b2 * 2 ^ 16 + (b1 * 2 ^ 8 + b0) := by
    rw [Nat.or_comm, Nat.mul_comm b2, ← Nat.mul_add_lt_is_or (by omega)]
  rw [e2]
  have e3 : b2 * 2 ^ 16 + (b1 * 2 ^ 8 + b0) ||| b3 * 2 ^ 24 =
      b3 * 2 ^ 24 + (b2 * 2 ^ 16 + (b1 * 2 ^ 8 + b0)) := by
    rw [Nat.or_comm, Nat.mul_comm b3, ← Nat.mul_add_lt_is_or (by omega)]
  rw [e3]
  ring

theorem pack4_word (n : Nat) : bytelist2long (pack4 n) = [n % 2 ^ 32] := by
  simp only [pack4, bytelist2long]
  rw [bytes_word _ _ _ _ (by omega) (by omega) (by omega)]
  congr 1
  omega

theorem getD_pair_congr (B : List Nat) {x y x' y' : Nat}
    (hx : x % 2 ^ 32 = x' % 2 ^ 32) (hy : y % 2 ^ 32 = y' % 2 ^ 32) (k : Nat) :
    (B ++ [x, y]).getD k 0 % 2 ^ 32 = (B ++ [x', y']).getD k 0 % 2 ^ 32 := by
  rcases Nat.lt_or_ge k B.length with hk | hk
  · rw [List.getD_append _ _ _ _ hk, List.getD_append _ _ _ _ hk]
  · rw [List.getD_append_right _ _ _ _ hk, List.getD_append_right _ _ _ _ hk]
    rcases hsub : k - B.length with _ | m
    · simpa using hx
    · rcases m with _ | m
      · simpa using hy
      · simp

/-- The last eight padded bytes decode to the two count words mod 2^32:
compressing the claim-side final block equals compressing the code-side
word list that ends in the raw count words. -/
theorem compress_final_block (t : Nat × Nat × Nat × Nat) (body : List Nat)
    (c0 c1 L : Nat) (hbody : body.length % 4 = 0)
    (h2 : c0 % 2 ^ 32 = L % 2 ^ 32) (h3 : c1 % 2 ^ 32 = (L >>> 32) % 2 ^ 32) :
    compressWords t
        (bytelist2long (body ++ pack4 (L % 2 ^ 32) ++ pack4 ((L >>> 32) % 2 ^ 32))) =
      compressWords t (bytelist2long body ++ [c0, c1]) := by
  rw [bytelist2long_append (body ++ pack4 (L % 2 ^ 32)) _
      (by simp only [List.length_append, pack4, List.length_cons, List.length_nil]; omega),
    bytelist2long_append body _ hbody, pack4_word, pack4_word]
  have hlo : L % 2 ^ 32 % 2 ^ 32 = L % 2 ^ 32 := Nat.mod_mod _ _
  have hhi : (L >>> 32) % 2 ^ 32 % 2 ^ 32 = (L >>> 32) % 2 ^ 32 := Nat.mod_mod _ _
  rw [hlo, hhi, List.append_assoc]
  have hlist : ([L % 2 ^ 32] ++ [(L >>> 32) % 2 ^ 32]) =
      [L % 2 ^ 32, (L >>> 32) % 2 ^ 32] := rfl
  rw [hlist]
  have hx : (L % 2 ^ 32) % 2 ^ 32 = c0 % 2 ^ 32 := by rw [Nat.mod_mod]; exact h2.symm
  have hy : ((L >>> 32) % 2 ^ 32) % 2 ^ 32 = c1 % 2 ^ 32 := by rw [Nat.mod_mod]; exact h3.symm
  exact compressWords_congr t (fun k => getD_pair_congr _ hx hy k)

/-! ### The two update branches, characterised on synchronised states -/

theorem transformLoop_short (f : Nat) (s : MD5Type) (rest : List Nat)
    (h : rest.length < 64) : transformLoop f s rest = (s, rest) := by
  cases f with
  | zero => rfl
  | succ f =>
      simp only [transformLoop]
      rw [if_neg (by omega)]

theorem update_buffering (s : MD5Type) (buf : List Nat)
    (hsync : s.input.length = (s.count0 >>> 3) % 64)
    (h : s.input.length + buf.length < 64) :
    update s buf = { s with
      count0 := s.count0 + (buf.length <<< 3),
      count1 := s.count1 + (buf.length >>> 29),
      input := s.input ++ buf } := by
  have hidx : (s.count0 >>> 3) &&& x3FL = s.input.length := by rw [and_x3F, ← hsync]
  have hcar : ¬ (s.count0 + (buf.length <<< 3) < buf.length <<< 3) :=
    Nat.not_lt.2 (Nat.le_add_left _ _)
  simp only [update, hidx, if_neg hcar]
  rw [if_neg (by omega)]

theorem update_one_block (s : MD5Type) (buf : List Nat)
    (hsync : s.input.length = (s.count0 >>> 3) % 64)
    (hge : 64 - s.input.length ≤ buf.length)
    (hsmall : buf.length < 128 - s.input.length) :
    update s buf =
      { transform { s with
            count0 := s.count0 + (buf.length <<< 3),
            count1 := s.count1 + (buf.length >>> 29),
            input := s.input ++ buf.take (64 - s.input.length) }
          (bytelist2long (s.input ++ buf.take (64 - s.input.length))) with
        input := buf.drop (64 - s.input.length) } := by
  have hidx : (s.count0 >>> 3) &&& x3FL = s.input.length := by rw [and_x3F, ← hsync]
  have hcar : ¬ (s.count0 + (buf.length <<< 3) < buf.length <<< 3) :=
    Nat.not_lt.2 (Nat.le_add_left _ _)
  have hlt64 : s.input.length < 64 := by
    rw [hsync]; exact Nat.mod_lt _ (by norm_num)
  simp only [update, hidx, if_neg hcar]
  rw [if_pos hge, List.take_length,
    transformLoop_short _ _ _ (by simp only [List.length_drop]; omega)]

/-! ### Block decomposition for the claim-side finalisation -/

/-- Cutting a byte string into its consecutive full 64-byte blocks (fuel
first, `l.length` is always enough). -/
def chunkBlocks : Nat → List Nat → List (List Nat)
  | 0, _ => []
  | f + 1, l => if 64 ≤ l.length then l.take 64 :: chunkBlocks f (l.drop 64) else []

theorem chunkBlocks_succ (f : Nat) (l : List Nat) :
    chunkBlocks (f + 1) l =
      if 64 ≤ l.length then l.take 64 :: chunkBlocks f (l.drop 64) else [] := rfl

theorem chunkBlocks_nil : ∀ f, chunkBlocks f [] = []
  | 0 => rfl
  | f + 1 => by rw [chunkBlocks_succ, if_neg (by simp)]

theorem chunkBlocks_single (l : List Nat) (h : l.length = 64) :
    chunkBlocks l.length l = [l] := by
  rw [h]
  show chunkBlocks (63 + 1) l = [l]
  rw [chunkBlocks_succ, if_pos (by omega), List.take_of_length_le (by omega),
    List.drop_eq_nil_of_le (by omega), chunkBlocks_nil]

theorem chunkBlocks_double (l : List Nat) (h : l.length = 128) :
    chunkBlocks l.length l = [l.take 64, l.drop 64] := by
  have hd : (l.drop 64).length = 64 := by simp [h]
  rw [h]
  show chunkBlocks (127 + 1) l = _
  rw [chunkBlocks_succ, if_pos (by omega)]
  congr 1
  show chunkBlocks (126 + 1) _ = _
  rw [chunkBlocks_succ, if_pos (by omega),
    List.take_of_length_le (show (l.drop 64).length ≤ 64 from hd.le),
    List.drop_eq_nil_of_le (show (l.drop 64).length ≤ 64 from hd.le), chunkBlocks_nil]

/-- Serialization of the four accumulators, little-endian, in order. -/
def pack16 (t : Nat × Nat × Nat × Nat) : List Nat :=
  pack4 t.1 ++ pack4 t.2.1 ++ pack4 t.2.2.1 ++ pack4 t.2.2.2

/-- Claim-side finalisation (C4): append 0x80 and zero bytes until the
length is 56 mod 64 (padLen = 56 - index when index < 56, else
120 - index), append the bit length as two 32-bit words (low word then
high word, each little-endian), compress each full 64-byte block in
order, and serialize A, B, C, D little-endian. -/
def md5Finalize (A B C D : Nat) (buffered : List Nat) (bitLen : Nat) : List Nat :=
  let index := buffered.length % 64
  let padLen := if index < 56 then 56 - index else 120 - index
  let msg := buffered ++ (0x80 :: List.replicate (padLen - 1) 0) ++
    pack4 (bitLen % 2 ^ 32) ++ pack4 ((bitLen >>> 32) % 2 ^ 32)
  pack16 ((chunkBlocks msg.length msg).foldl
    (fun acc blk => compressWords acc (bytelist2long blk)) (A, B, C, D))

theorem take_padding (m : Nat) (hm : 1 ≤ m) (h64 : m ≤ 64) :
    ((0x80 : Nat) :: List.replicate 63 0).take m = 0x80 :: List.replicate (m - 1) 0 := by
  obtain ⟨m', rfl⟩ : ∃ m', m = m' + 1 := ⟨m - 1, by omega⟩
  rw [List.take_succ_cons, List.take_replicate]
  simp only [Nat.add_sub_cancel]
  rw [Nat.min_eq_left (by omega)]

theorem transform_A (s : MD5Type) (inp : List Nat) :
    (transform s inp).A = (compressWords (s.A, s.B, s.C, s.D) inp).1 := rfl

theorem transform_B (s : MD5Type) (inp : List Nat) :
    (transform s inp).B = (compressWords (s.A, s.B, s.C, s.D) inp).2.1 := rfl

theorem transform_C (s : MD5Type) (inp : List Nat) :
    (transform s inp).C = (compressWords (s.A, s.B, s.C, s.D) inp).2.2.1 := rfl

theorem transform_D (s : MD5Type) (inp : List Nat) :
    (transform s inp).D = (compressWords (s.A, s.B, s.C, s.D) inp).2.2.2 := rfl

/-- What `digest` computes when the buffer holds fewer than 56 bytes: the
padding fits the current block and one compression finishes. -/
theorem digest_fst_small (s : MD5Type)
    (h1 : s.input.length = (s.count0 >>> 3) % 64) (hc : s.input.length < 56) :
    (digest s).1 = pack16 (compressWords (s.A, s.B, s.C, s.D)
      (bytelist2long (s.input ++ 0x80 :: List.replicate (56 - s.input.length - 1) 0) ++
        [s.count0, s.count1])) := by
  have hidx_and : (s.count0 >>> 3) &&& x3FL = s.input.length := by rw [and_x3F, ← h1]
  have hpad := take_padding (56 - s.input.length) (by omega) (by omega)
  have hup := update_buffering s (0x80 :: List.replicate (56 - s.input.length - 1) 0) h1
    (by simp only [List.length_cons, List.length_replicate]; omega)
  have htk : (s.input ++ 0x80 :: List.replicate (56 - s.input.length - 1) 0).take 56 =
      s.input ++ 0x80 :: List.replicate (56 - s.input.length - 1) 0 :=
    List.take_of_length_le
      (by simp only [List.length_append, List.length_cons, List.length_replicate]; omega)
  simp only [digest, hidx_and, if_pos hc, hpad, hup, htk, pack16,
    transform_A, transform_B, transform_C, transform_D]

/-- What `digest` computes when the buffer holds 56 to 63 bytes: the
padding spills into a second block, so two compressions finish. -/
theorem digest_fst_large (s : MD5Type)
    (h1 : s.input.length = (s.count0 >>> 3) % 64) (hc : ¬ s.input.length < 56) :
    (digest s).1 = pack16 (compressWords
      (compressWords (s.A, s.B, s.C, s.D)
        (bytelist2long (s.input ++ 0x80 :: List.replicate (63 - s.input.length) 0)))
      (bytelist2long (List.replicate 56 0) ++ [s.count0, s.count1])) := by
  have hlt : s.input.length < 64 := by rw [h1]; exact Nat.mod_lt _ (by norm_num)
  have hidx_and : (s.count0 >>> 3) &&& x3FL = s.input.length := by rw [and_x3F, ← h1]
  have hpad := take_padding (120 - s.input.length) (by omega) (by omega)
  have hup := update_one_block s (0x80 :: List.replicate (120 - s.input.length - 1) 0) h1
    (by simp only [List.length_cons, List.length_replicate]; omega)
    (by simp only [List.length_cons, List.length_replicate]; omega)
  have htake : (0x80 :: List.replicate (120 - s.input.length - 1) (0 : Nat)).take
      (64 - s.input.length) = 0x80 :: List.replicate (63 - s.input.length) 0 := by
    rw [show 64 - s.input.length = (63 - s.input.length) + 1 from by omega,
      List.take_succ_cons, List.take_replicate, Nat.min_eq_left (by omega)]
  have hdrop : (0x80 :: List.replicate (120 - s.input.length - 1) (0 : Nat)).drop
      (64 - s.input.length) = List.replicate 56 0 := by
    rw [show 64 - s.input.length = (63 - s.input.length) + 1 from by omega,
      List.drop_succ_cons, List.drop_replicate]
    congr 1
    omega
  have htk : (List.replicate 56 (0 : Nat)).take 56 = List.replicate 56 0 := by
    rw [List.take_replicate, Nat.min_self]
  simp only [digest, hidx_and, if_neg hc, hpad, hup, htake, hdrop, htk, pack16,
    transform_A, transform_B, transform_C, transform_D]

/-- C4: on every state whose buffer agrees with the bit counter (index =
(count0 >> 3) mod 64) and whose count words encode the message bit length
L mod 2^64 (low word count0, high word count1), digest() returns exactly
the claim-side finalization: 0x80, zero padding to 56 mod 64 with
padLen = 56 - index or 120 - index, the bit length L appended as low then
high little-endian words, every full 64-byte block compressed in order,
and A, B, C, D serialized little-endian. -/
theorem c4_digest_is_finalize (s : MD5Type) (L : Nat)
    (h1 : s.input.length = (s.count0 >>> 3) % 64)
    (h2 : s.count0 % 2 ^ 32 = L % 2 ^ 32)
    (h3 : s.count1 % 2 ^ 32 = (L >>> 32) % 2 ^ 32) :
    (digest s).1 = md5Finalize s.A s.B s.C s.D s.input L := by
  have hlt : s.input.length < 64 := by rw [h1]; exact Nat.mod_lt _ (by norm_num)
  have hmod : s.input.length % 64 = s.input.length := Nat.mod_eq_of_lt hlt
  by_cases hc : s.input.length < 56
  · rw [digest_fst_small s h1 hc]
    simp only [md5Finalize, hmod, if_pos hc]
    have hmsg : (s.input ++ (0x80 :: List.replicate (56 - s.input.length - 1) 0) ++
        pack4 (L % 2 ^ 32) ++ pack4 ((L >>> 32) % 2 ^ 32)).length = 64 := by
      simp only [List.length_append, List.length_cons, List.length_replicate, pack4,
        List.length_nil]
      omega
    rw [chunkBlocks_single _ hmsg]
    simp only [List.foldl_cons, List.foldl_nil]
    rw [compress_final_block _ _ s.count0 s.count1 L
      (by simp only [List.length_append, List.length_cons, List.length_replicate]; omega)
      h2 h3]
  · rw [digest_fst_large s h1 hc]
    simp only [md5Finalize, hmod, if_neg hc]
    have hmsg : (s.input ++ (0x80 :: List.replicate (120 - s.input.length - 1) 0) ++
        pack4 (L % 2 ^ 32) ++ pack4 ((L >>> 32) % 2 ^ 32)).length = 128 := by
      simp only [List.length_append, List.length_cons, List.length_replicate, pack4,
        List.length_nil]
      omega
    rw [chunkBlocks_double _ hmsg]
    simp only [List.foldl_cons, List.foldl_nil]
    have htake64 : (s.input ++ (0x80 :: List.replicate (120 - s.input.length - 1) 0) ++
        pack4 (L % 2 ^ 32) ++ pack4 ((L >>> 32) % 2 ^ 32)).take 64 =
        s.input ++ 0x80 :: List.replicate (63 - s.input.length) 0 := by
      rw [List.take_append_of_le_length (by
          simp only [List.length_append, List.length_cons, List.length_replicate, pack4,
            List.length_nil]
          omega),
        List.take_append_of_le_length (by
          simp only [List.length_append, List.length_cons, List.length_replicate]
          omega),
        List.take_append_eq_append_take,
        List.take_of_length_le (show s.input.length ≤ 64 by omega),
        show 64 - s.input.length = (63 - s.input.length) + 1 from by omega,
        List.take_succ_cons, List.take_replicate, Nat.min_eq_left (by omega)]
    have hdrop64 : (s.input ++ (0x80 :: List.replicate (120 - s.input.length - 1) 0) ++
        pack4 (L % 2 ^ 32) ++ pack4 ((L >>> 32) % 2 ^ 32)).drop 64 =
        List.replicate 56 0 ++ pack4 (L % 2 ^ 32) ++ pack4 ((L >>> 32) % 2 ^ 32) := by
      rw [List.drop_append_of_le_length (by
          simp only [List.length_append, List.length_cons, List.length_replicate, pack4,
            List.length_nil]
          omega),
        List.drop_append_of_le_length (by
          simp only [List.length_append, List.length_cons, List.length_replicate]
          omega),
        List.drop_append_eq_append_drop,
        List.drop_eq_nil_of_le (show s.input.length ≤ 64 by omega), List.nil_append,
        show 64 - s.input.length = (63 - s.input.length) + 1 from by omega,
        List.drop_succ_cons, List.drop_replicate,
        show 120 - s.input.length - 1 - (63 - s.input.length) = 56 from by omega]
    rw [htake64, hdrop64, compress_final_block _ _ s.count0 s.count1 L
      (by simp) h2 h3]

/-- C4 witness: the engine after update("abc"), with bit length L = 24. -/
theorem c4_witness :
    (update init [97, 98, 99]).input.length =
        ((update init [97, 98, 99]).count0 >>> 3) % 64 ∧
    (update init [97, 98, 99]).count0 % 2 ^ 32 = 24 % 2 ^ 32 ∧
    (update init [97, 98, 99]).count1 % 2 ^ 32 = (24 >>> 32) % 2 ^ 32 ∧
    (digest (update init [97, 98, 99])).1 =
      md5Finalize (update init [97, 98, 99]).A (update init [97, 98, 99]).B
        (update init [97, 98, 99]).C (update init [97, 98, 99]).D
        (update init [97, 98, 99]).input 24 := by
  refine ⟨by decide, by decide, by decide, ?_⟩
  exact c4_digest_is_finalize (update init [97, 98, 99]) 24 (by decide) (by decide) (by decide)

end PyMD5

namespace Fingerprint

open PyMD5

/-- A minimal PEM fixture whose body is the Base64 text AAAA (three zero
bytes). -/
def pemExample : List Nat :=
  strBytes "-----BEGIN PUBLIC KEY-----\nAAAA\n-----END PUBLIC KEY-----\n"

/-- C6 witness: the fixture decodes to the three zero bytes and the
fingerprint is the colon regrouping of their MD5 hex digest. -/
theorem c6_witness :
    b64decode (stripPem pemExample) = some [0, 0, 0] ∧
    public_key_to_fingerprint pemExample =
      some (colonGroups (hexdigest (md5 [0, 0, 0])).1) := by
  have h : b64decode (stripPem pemExample) = some [0, 0, 0] := by decide
  exact ⟨h, (c6_fingerprint pemExample [0, 0, 0] h).1⟩

end Fingerprint

